import Mathlib

/-!
Shallow embedding of the BlinkDB storage engine (`src/Part B/src/blinkdb.cpp`)
and the RESP server front end (`src/Part B/src/blink_server.cpp`).

Design of the embedding:
* `std::unordered_map<std::string,std::string> store` is modelled as an
  association list `List (String × String)`; map assignment `store[k] = v`
  replaces in place when the key is present and appends otherwise, and
  `store.erase(k)` removes the entry with key `k`.
* `std::list<std::string> lru_keys` is the list `lru_keys` (front = most
  recently used).  `lru_map` is only a positional index into `lru_keys`
  (every code path keeps the two in sync), so membership in `lru_map` is
  modelled as membership in `lru_keys` and `lru_keys.erase(lru_map[k])`
  as erasing the (unique) occurrence of `k`.
* `evicted_keys` (an `unordered_map<std::string,bool>` used as a set, the
  value is always `true`) is a list used as a set.
* The persistence file is carried in the state as a `String` of raw bytes;
  a missing file behaves exactly like an empty one (`if (in)` skips the
  read loop, and the whole-file rewrite ignores prior contents), so the
  empty string models the absent file.
* I/O success of `std::ofstream` in `persistToFile` is an explicit `ok`
  parameter: when `ok = false` the file keeps its old bytes.
* The capacity `max_cache_size` (`MAX_CAPACITY = 10000` in `blinkdb.h`)
  is a parameter `N` of the operations.
-/

namespace BlinkDB

/-- State of a `BlinkDB` object together with the persistence file. -/
structure DBState where
  store : List (String × String)
  lru_keys : List String
  evicted_keys : List String
  dirty : Bool
  file : String
deriving DecidableEq

/-- A freshly constructed database with no persistence file on disk
(`loadFromFile` finds nothing and leaves every member empty). -/
def emptyState : DBState := ⟨[], [], [], false, ""⟩

/-- Model of `store[key] = value` on the association-list model of
`std::unordered_map`: replace in place if present, insert otherwise. -/
def storeAssign (key value : String) (st : List (String × String)) :
    List (String × String) :=
  if st.any (fun p => p.1 == key) then
    st.map (fun p => if p.1 == key then (key, value) else p)
  else
    st ++ [(key, value)]

/-- Model of `store.erase(key)`: drop the entry with this key. -/
def storeErase (key : String) (st : List (String × String)) :
    List (String × String) :=
  st.filter (fun p => p.1 != key)

/-- Model of `evicted_keys[key] = true`: insert into the set. -/
def evictedInsert (key : String) (ev : List String) : List String :=
  if ev.contains key then ev else ev ++ [key]

/-- Model of `evicted_keys.erase(key)`. -/
def evictedErase (key : String) (ev : List String) : List String :=
  ev.filter (fun k => k != key)

/-- Model of `BlinkDB::updateLRU` (blinkdb.cpp:140-165): move `key` to the LRU
front; if the list then exceeds the capacity `N`, evict the back key:
mark it (only when it is resident), erase it from the store and from the
LRU structures, and set `dirty`. -/
def updateLRU (N : Nat) (key : String) (s : DBState) : DBState :=
  let lru1 := if s.lru_keys.contains key then s.lru_keys.erase key
              else s.lru_keys
  let lru2 := key :: lru1
  if lru2.length > N then
    let evict_key := lru2.getLast?.getD key
    let ev' := if s.store.any (fun p => p.1 == evict_key) then
                 evictedInsert evict_key s.evicted_keys
               else s.evicted_keys
    { store := storeErase evict_key s.store
      lru_keys := lru2.dropLast
      evicted_keys := ev'
      dirty := true
      file := s.file }
  else
    { s with lru_keys := lru2 }

/-- Model of `BlinkDB::set` (blinkdb.cpp:47-56): touch the LRU first (this is
where eviction can fire, before the new value is stored), then assign
and set `dirty`. -/
def set (N : Nat) (key value : String) (s : DBState) : DBState :=
  let s1 := updateLRU N key s
  { s1 with store := storeAssign key value s1.store, dirty := true }

/-- One `getline(in, out, delim)` step on the remaining bytes: the
content read, and `some rest` when the delimiter was found (and
consumed), `none` when the stream ran out first. -/
def getlineDelim (d : Char) : List Char → List Char × Option (List Char)
  | [] => ([], none)
  | c :: cs =>
    if c = d then ([], some cs)
    else
      let r := getlineDelim d cs
      (c :: r.1, r.2)

/-- The record-reading loop shared by `restoreFromDisk` and
`loadFromFile`: `while (getline(in, key, '\t') && getline(in, value))`.
A `getline` succeeds exactly when at least one character (content or
delimiter) is extracted, so the loop stops at end of input; a final
record whose value line lacks the trailing newline is still read.
`fuel` bounds the recursion; each iteration consumes at least one byte,
so `fuel = input length` is always enough. -/
def parseRecordsAux : Nat → List Char → List (String × String)
  | 0, _ => []
  | _, [] => []
  | fuel + 1, c :: cs =>
    match getlineDelim '\t' (c :: cs) with
    | (_, none) => []
    | (key, some rest) =>
      match rest with
      | [] => []
      | r :: rs =>
        match getlineDelim '\n' (r :: rs) with
        | (val, none) => [(key.asString, val.asString)]
        | (val, some rest2) =>
          (key.asString, val.asString) :: parseRecordsAux fuel rest2

/-- All `(key, value)` records of the persistence file, in file order. -/
def parseRecords (file : String) : List (String × String) :=
  parseRecordsAux file.data.length file.data

/-- The first record of the file whose key matches, if any (the scan in
`restoreFromDisk` breaks at the first hit). -/
def fileLookup (key : String) (file : String) : Option String :=
  ((parseRecords file).find? (fun p => p.1 == key)).map (fun p => p.2)

/-- Model of `BlinkDB::restoreFromDisk` (blinkdb.cpp:93-107): scan the file for
`key`; on the first hit, put the record back into the store, push the
key to the LRU front and drop the eviction marker; on a miss (or an
unopenable file) change nothing. -/
def restoreFromDisk (key : String) (s : DBState) : DBState :=
  match fileLookup key s.file with
  | some v =>
    { s with store := storeAssign key v s.store
             lru_keys := key :: s.lru_keys
             evicted_keys := evictedErase key s.evicted_keys }
  | none => s

/-- Model of `BlinkDB::get` (blinkdb.cpp:63-87): probe the store; on a miss of an
eviction-marked key, try a disk restore and probe again; a final miss
returns the sentinel `"NULL"`, a hit touches the LRU and returns the
value. -/
def get (N : Nat) (key : String) (s : DBState) : String × DBState :=
  let s1 := if (s.store.lookup key).isNone && s.evicted_keys.contains key then
              restoreFromDisk key s
            else s
  match s1.store.lookup key with
  | none => ("NULL", s1)
  | some v => (v, updateLRU N key s1)

/-- Model of `BlinkDB::del` (blinkdb.cpp:114-132): absent keys report `false`
and change nothing (in particular the eviction marker set is never
touched); resident keys are removed from the LRU structures and the
store, and `dirty` is set. -/
def del (key : String) (s : DBState) : Bool × DBState :=
  match s.store.lookup key with
  | none => (false, s)
  | some _ =>
    let lru' := if s.lru_keys.contains key then s.lru_keys.erase key
                else s.lru_keys
    (true, { s with lru_keys := lru'
                    store := storeErase key s.store
                    dirty := true })

/-- The bytes `persistToFile` writes for a given resident set: each
record is `key TAB value NEWLINE`, in store order. -/
def serializeStore (st : List (String × String)) : String :=
  st.foldr (fun kv acc => kv.1 ++ "\t" ++ kv.2 ++ "\n" ++ acc) ""

/-- Model of `BlinkDB::persistToFile` (blinkdb.cpp:170-178): when the file opens
(`ok = true`) rewrite it wholesale from the store; `dirty` is cleared
unconditionally, after the `if (out)` block, whether or not the open
succeeded. -/
def persistToFile (ok : Bool) (s : DBState) : DBState :=
  { s with file := if ok then serializeStore s.store else s.file
           dirty := false }

/-- One wake-up of `BlinkDB::flushToDiskPeriodically`
(blinkdb.cpp:200-207): flush only when `dirty`. -/
def flushTick (ok : Bool) (s : DBState) : DBState :=
  if s.dirty then persistToFile ok s else s

end BlinkDB

/-!
The RESP-2 server front end (`src/Part B/src/blink_server.cpp`).

`std::stoi` can throw (`std::invalid_argument` when no digits follow the
optional whitespace and sign); nothing in `decodeCommand`,
`handleClientRead` or the event loop catches, so a throw escapes the
request path entirely.  Fallible evaluation is modelled with
`Except Unit`: `.error ()` is an escaped exception, `.ok` a normal
return.  (`std::out_of_range` needs a count or length beyond `INT_MAX`,
which a 1024-byte read buffer cannot carry in a meaningful frame; only
the no-digits throw is modelled.)
-/

namespace BlinkServer

/-- Whitespace skipped by `std::stoi` (C locale `isspace`). -/
def isSpaceChar (c : Char) : Bool :=
  c = ' ' || c = '\t' || c = '\n' || c = '\x0b' || c = '\x0c' || c = '\r'

/-- Model of `std::stoi` on the characters of the argument string: skip
whitespace, read an optional sign, then a non-empty run of digits
(later characters are ignored); throw when there is no digit. -/
def stoiChars (cs : List Char) : Except Unit Int :=
  let cs1 := cs.dropWhile isSpaceChar
  let signAndRest : Bool × List Char :=
    match cs1 with
    | '-' :: r => (true, r)
    | '+' :: r => (false, r)
    | _ => (false, cs1)
  let ds := signAndRest.2.takeWhile Char.isDigit
  if ds.isEmpty then .error ()
  else
    let n : Nat := ds.foldl (fun acc c => acc * 10 + (c.toNat - 48)) 0
    .ok (if signAndRest.1 then -(n : Int) else (n : Int))

/-- Model of `raw_input.find("\r\n", index)` followed by taking the substring up
to the match and the remainder after it: `some (before, after)` when
`"\r\n"` occurs, `none` otherwise. -/
def splitCRLF : List Char → Option (List Char × List Char)
  | '\r' :: '\n' :: rest => some ([], rest)
  | c :: rest => (splitCRLF rest).map (fun p => (c :: p.1, p.2))
  | [] => none

/-- The argument loop of `BlinkServer::decodeCommand`
(blink_server.cpp:184-196), one iteration per remaining count.  `acc`
is the `parsed_command` vector built so far; every early `return
parsed_command` hands back whatever was already pushed — a *partial*
vector.  A negative bulk length makes `index + len` wrap as `size_t`,
so the bounds check fails and the partial vector is returned. -/
def parseArgs : Nat → List Char → List String → Except Unit (List String)
  | 0, _, acc => .ok acc
  | n + 1, rem, acc =>
    match rem with
    | [] => .ok acc
    | c :: rest =>
      if c ≠ '$' then .ok acc
      else
        match splitCRLF rest with
        | none => .ok acc
        | some (pre, post) =>
          match stoiChars pre with
          | .error e => .error e
          | .ok len =>
            if len < 0 then .ok acc
            else if post.length < len.toNat then .ok acc
            else
              parseArgs n (post.drop (len.toNat + 2))
                (acc ++ [(post.take len.toNat).asString])

/-- Model of `BlinkServer::decodeCommand` (blink_server.cpp:168-199).  A missing
`*` or missing first terminator returns the empty vector; a
non-positive count makes the loop body never run (also the empty
vector); a non-numeric count is an uncaught `std::stoi` throw. -/
def decodeCommand (raw : String) : Except Unit (List String) :=
  match raw.data with
  | [] => .ok []
  | c :: rest =>
    if c ≠ '*' then .ok []
    else
      match splitCRLF rest with
      | none => .ok []
      | some (pre, post) =>
        match stoiChars pre with
        | .error e => .error e
        | .ok n => parseArgs n.toNat post []

/-- Model of `BlinkServer::encodeSimpleString`. -/
def encodeSimpleString (msg : String) : String := "+" ++ msg ++ "\r\n"

/-- Model of `BlinkServer::encodeBulkString`: the empty string encodes as the
null bulk `$-1\r\n`. -/
def encodeBulkString (msg : String) : String :=
  if msg.isEmpty then "$-1\r\n"
  else "$" ++ toString msg.length ++ "\r\n" ++ msg ++ "\r\n"

/-- Model of `BlinkServer::encodeInteger`. -/
def encodeInteger (value : Int) : String := ":" ++ toString value ++ "\r\n"

/-- Model of `BlinkServer::encodeError`. -/
def encodeError (msg : String) : String := "-ERR " ++ msg ++ "\r\n"

/-- Model of `std::transform(..., ::toupper)` over an ASCII command verb. -/
def toUpperStr (s : String) : String := ⟨s.data.map Char.toUpper⟩

/-- Model of `BlinkServer::processSet` (blink_server.cpp:236-240). -/
def processSet (N : Nat) (key value : String) (s : BlinkDB.DBState) :
    String × BlinkDB.DBState :=
  (encodeSimpleString "OK", BlinkDB.set N key value s)

/-- Model of `BlinkServer::processGet` (blink_server.cpp:249-253): the engine's
`"NULL"` sentinel is mapped to the null bulk reply. -/
def processGet (N : Nat) (key : String) (s : BlinkDB.DBState) :
    String × BlinkDB.DBState :=
  let r := BlinkDB.get N key s
  ((if r.1 == "NULL" then encodeBulkString "" else encodeBulkString r.1), r.2)

/-- Model of `BlinkServer::processDel` (blink_server.cpp:262-265). -/
def processDel (key : String) (s : BlinkDB.DBState) :
    String × BlinkDB.DBState :=
  let r := BlinkDB.del key s
  (encodeInteger (if r.1 then 1 else 0), r.2)

/-- Model of `BlinkServer::handleCommand` (blink_server.cpp:208-227): verb
matched case-insensitively with exact arity for SET/GET/DEL, `CONFIG`
at any arity answered `*0\r\n`, everything else an error reply. -/
def handleCommand (N : Nat) (command : List String) (s : BlinkDB.DBState) :
    String × BlinkDB.DBState :=
  match command with
  | [] => (encodeError "Empty command", s)
  | cmd0 :: args =>
    let cmd := toUpperStr cmd0
    match cmd, args with
    | "SET", [k, v] => processSet N k v s
    | "GET", [k] => processGet N k s
    | "DEL", [k] => processDel k s
    | _, _ =>
      if cmd == "CONFIG" then ("*0\r\n", s)
      else (encodeError "Unknown command", s)

/-- The reply path of `BlinkServer::handleClientRead`
(blink_server.cpp:139-159) after a successful socket read: an empty
decode result answers `-ERR Invalid Command\r\n`, a non-empty one is
dispatched; an exception from the decoder escapes (no reply at all). -/
def serverReply (N : Nat) (raw : String) (s : BlinkDB.DBState) :
    Except Unit (String × BlinkDB.DBState) :=
  match decodeCommand raw with
  | .error e => .error e
  | .ok command =>
    if command.isEmpty then .ok (encodeError "Invalid Command", s)
    else .ok (handleCommand N command s)

end BlinkServer

/-!
Supporting lemmas about the association-list store and the marker set.
-/

namespace BlinkDB

theorem any_key_false_of_not_mem {k : String} {st : List (String × String)}
    (h : k ∉ st.map Prod.fst) : st.any (fun p => p.1 == k) = false := by
  induction st with
  | nil => rfl
  | cons p t ih =>
    simp only [List.map_cons, List.mem_cons, not_or] at h
    simp [List.any_cons, ih h.2, beq_iff_eq, Ne.symm, h.1]

theorem lookup_eq_none_of_not_mem {k : String} {st : List (String × String)}
    (h : k ∉ st.map Prod.fst) : st.lookup k = none := by
  induction st with
  | nil => rfl
  | cons p t ih =>
    simp only [List.map_cons, List.mem_cons, not_or] at h
    obtain ⟨p1, p2⟩ := p
    have hk : (k == p1) = false := by
      simp only [beq_eq_false_iff_ne]
      exact fun e => h.1 (by simpa using e)
    simp [List.lookup_cons, hk, ih h.2]

theorem lookup_map_assign {k v : String} {st : List (String × String)}
    (h : st.any (fun p => p.1 == k) = true) :
    (st.map (fun p => if p.1 == k then (k, v) else p)).lookup k = some v := by
  induction st with
  | nil => simp at h
  | cons p t ih =>
    obtain ⟨p1, p2⟩ := p
    rcases hp : (p1 == k) with _ | _
    · have h' : (t.any fun p => p.1 == k) = true := by
        simpa [List.any_cons, hp] using h
      have hk : (k == p1) = false := by
        simp only [beq_eq_false_iff_ne]
        simp only [beq_eq_false_iff_ne] at hp
        exact fun e => hp e.symm
      have hpne : p1 ≠ k := by simpa [beq_eq_false_iff_ne] using hp
      simp only [List.map_cons]
      rw [if_neg (show ¬((p1, p2).1 == k) = true from by simp [hpne])]
      simp only [List.lookup_cons, hk]
      simpa using ih h'
    · have hpe : p1 = k := by simpa using hp
      subst hpe
      simp [List.map_cons, List.lookup_cons]

theorem lookup_append_self {k v : String} {st : List (String × String)}
    (h : st.any (fun p => p.1 == k) = false) :
    (st ++ [(k, v)]).lookup k = some v := by
  induction st with
  | nil => simp [List.lookup_cons]
  | cons p t ih =>
    obtain ⟨p1, p2⟩ := p
    simp only [List.any_cons, Bool.or_eq_false_iff] at h
    have hk : (k == p1) = false := by
      have h1 : (p1 == k) = false := by simpa using h.1
      simp only [beq_eq_false_iff_ne] at h1 ⊢
      exact fun e => h1 e.symm
    simp [List.lookup_cons, hk, ih h.2]

theorem lookup_storeAssign_self (k v : String) (st : List (String × String)) :
    (storeAssign k v st).lookup k = some v := by
  unfold storeAssign
  rcases h : st.any (fun p => p.1 == k) with _ | _
  · simpa [h] using lookup_append_self h
  · simpa [h] using lookup_map_assign (v := v) h

theorem lookup_storeErase_ne {e k : String} (st : List (String × String))
    (h : e ≠ k) : (storeErase e st).lookup k = st.lookup k := by
  induction st with
  | nil => rfl
  | cons p t ih =>
    obtain ⟨p1, p2⟩ := p
    simp only [storeErase] at ih ⊢
    simp only [List.filter_cons]
    by_cases hp : p1 = e
    · subst hp
      have hk : (k == p1) = false := by
        simp only [beq_eq_false_iff_ne]
        exact fun e' => h e'.symm
      simp [List.lookup_cons, hk, ih]
    · rw [if_pos (by simpa using bne_iff_ne.mpr hp)]
      simp only [List.lookup_cons]
      rcases hbk : (k == p1) with _ | _ <;> simp [ih]

theorem not_mem_evictedErase_self (k : String) (ev : List String) :
    k ∉ evictedErase k ev := by
  simp [evictedErase, List.mem_filter]

theorem not_mem_evictedInsert_of_ne {k e : String} {ev : List String}
    (h1 : k ∉ ev) (h2 : k ≠ e) : k ∉ evictedInsert e ev := by
  unfold evictedInsert
  split
  · exact h1
  · simp [h1, h2]

end BlinkDB

/-!
Claim theorems.
-/

/-- C1: the claim states that after `del k` the key is absent from both the
resident set and the eviction marker set, and a subsequent `get k` returns
absent even when the persistence log still holds a record for `k`.  The code
violates this: with capacity 1, after `SET a v`, a flush, and `SET b w`
(which evicts `a`), `del "a"` returns `false`, leaves the eviction marker for
`a` in place, and the following `get "a"` resurrects `"v"` from the stale
log instead of reporting absent. -/
theorem del_does_not_scrub_eviction_marker :
    (BlinkDB.del "a" (BlinkDB.set 1 "b" "w" (BlinkDB.flushTick true
        (BlinkDB.set 1 "a" "v" BlinkDB.emptyState)))).1 = false ∧
    (BlinkDB.del "a" (BlinkDB.set 1 "b" "w" (BlinkDB.flushTick true
        (BlinkDB.set 1 "a" "v" BlinkDB.emptyState)))).2.evicted_keys = ["a"] ∧
    (BlinkDB.get 1 "a" (BlinkDB.del "a" (BlinkDB.set 1 "b" "w"
        (BlinkDB.flushTick true
          (BlinkDB.set 1 "a" "v" BlinkDB.emptyState)))).2).1 = "v" :=
  ⟨rfl, rfl, rfl⟩

/-- C2: the claim states that a key in the eviction marker set is findable in
the persistence log once the first flush after its eviction completes.  The
code violates this: `persistToFile` rewrites the file wholesale from the
resident set, which no longer contains the evicted key, so the first flush
*after* the eviction removes (or never writes) the key.  With capacity 1:
`SET a v; SET b w` evicts `a`, and after the flush the file holds only `b`,
the lookup of `a` misses, and `GET a` reports absent. -/
theorem flush_after_eviction_drops_evicted_key :
    (BlinkDB.flushTick true (BlinkDB.set 1 "b" "w"
        (BlinkDB.set 1 "a" "v" BlinkDB.emptyState))).evicted_keys = ["a"] ∧
    BlinkDB.fileLookup "a" (BlinkDB.flushTick true (BlinkDB.set 1 "b" "w"
        (BlinkDB.set 1 "a" "v" BlinkDB.emptyState))).file = none ∧
    (BlinkDB.get 1 "a" (BlinkDB.flushTick true (BlinkDB.set 1 "b" "w"
        (BlinkDB.set 1 "a" "v" BlinkDB.emptyState)))).1 = "NULL" :=
  ⟨rfl, rfl, rfl⟩

/-- C4: the claim states that request processing is total and the parser
never raises, in particular not on a non-numeric array count.  The code
violates this: on input `*x\r\n` the call `std::stoi("x")` raises
`std::invalid_argument`, which no frame of the request path catches, so no
reply (and no parse-failure value) is produced. -/
theorem decode_nonnumeric_count_raises :
    BlinkServer.decodeCommand "*x\r\n" = .error () ∧
    BlinkServer.serverReply 10 "*x\r\n" BlinkDB.emptyState = .error () :=
  ⟨rfl, rfl⟩

/-- C6: the claim states that after a failed flush the dirty flag remains
set, so the flush is retried at the next timer tick.  The code violates
this: `persistToFile` executes `dirty = false` outside the `if (out)` block,
so even when the file cannot be opened (`ok = false`, file unchanged) the
dirty flag is cleared and no retry happens. -/
theorem failed_flush_clears_dirty :
    (BlinkDB.set 10 "a" "v" BlinkDB.emptyState).dirty = true ∧
    (BlinkDB.flushTick false
        (BlinkDB.set 10 "a" "v" BlinkDB.emptyState)).dirty = false ∧
    (BlinkDB.flushTick false (BlinkDB.set 10 "a" "v" BlinkDB.emptyState)).file
      = (BlinkDB.set 10 "a" "v" BlinkDB.emptyState).file :=
  ⟨rfl, rfl, rfl⟩

/-- C8: flushing is idempotent: `persistToFile` leaves the resident set
unchanged, so a second flush with no intervening mutation serialises the
same store and writes byte-identical file contents. -/
theorem persistToFile_idempotent (s : BlinkDB.DBState) :
    (BlinkDB.persistToFile true (BlinkDB.persistToFile true s)).file
      = (BlinkDB.persistToFile true s).file ∧
    (BlinkDB.persistToFile true s).store = s.store :=
  ⟨rfl, rfl⟩

/-- C9: when the stored value of a resident key is exactly the four-byte
string `"NULL"`, `get` returns the same sentinel it returns for an absent
key, and the server's GET handler answers with the null bulk `$-1\r\n`
instead of `$4\r\nNULL\r\n` — the in-band sentinel collides with a legal
stored value. -/
theorem null_value_indistinguishable_from_absent (N : Nat) (k : String)
    (s : BlinkDB.DBState) (h : s.store.lookup k = some "NULL") :
    (BlinkDB.get N k s).1 = (BlinkDB.get N k BlinkDB.emptyState).1 ∧
    (BlinkDB.get N k s).1 = "NULL" ∧
    (BlinkServer.processGet N k s).1 = "$-1\r\n" := by
  have hget : (BlinkDB.get N k s).1 = "NULL" := by
    simp [BlinkDB.get, h]
  have hempty : (BlinkDB.get N k BlinkDB.emptyState).1 = "NULL" := rfl
  refine ⟨hget.trans hempty.symm, hget, ?_⟩
  show (if (BlinkDB.get N k s).1 == "NULL" then BlinkServer.encodeBulkString ""
        else BlinkServer.encodeBulkString (BlinkDB.get N k s).1) = "$-1\r\n"
  rw [hget]
  rfl

/-- Witness for C9 at a concrete state: after `SET a NULL` the lookup of
`a` yields the stored value `"NULL"` and the GET reply is the null bulk. -/
theorem null_value_indistinguishable_from_absent_witness :
    (BlinkDB.set 10 "a" "NULL" BlinkDB.emptyState).store.lookup "a"
        = some "NULL" ∧
    (BlinkServer.processGet 10 "a"
        (BlinkDB.set 10 "a" "NULL" BlinkDB.emptyState)).1 = "$-1\r\n" :=
  ⟨rfl, (null_value_indistinguishable_from_absent 10 "a"
      (BlinkDB.set 10 "a" "NULL" BlinkDB.emptyState) rfl).2.2⟩

/-- C3 counterexample: on the malformed input `*2\r\n$3\r\nGET\r\nfoo\r\n`
(missing `$` on the second argument) the parser does NOT yield a single
parse-failure result: it returns the partial one-element vector `["GET"]`,
and the server's reply to this input is `-ERR Unknown command\r\n`, not
`-ERR Invalid Command\r\n`. -/
theorem decode_partial_vector_counterexample :
    BlinkServer.decodeCommand "*2\r\n$3\r\nGET\r\nfoo\r\n" = .ok ["GET"] ∧
    BlinkServer.serverReply 10 "*2\r\n$3\r\nGET\r\nfoo\r\n" BlinkDB.emptyState
      = .ok ("-ERR Unknown command\r\n", BlinkDB.emptyState) ∧
    ("-ERR Unknown command\r\n" : String) ≠ "-ERR Invalid Command\r\n" :=
  ⟨rfl, rfl, by decide⟩

/-- C3 (amended): framing failures detected before the first argument has
been completed make the parser return the empty vector, which the server
answers with exactly `-ERR Invalid Command\r\n`; framing that breaks after
at least one argument has been parsed instead yields that partial vector,
which is dispatched as an ordinary command — for `*2\r\n$3\r\nGET\r\nfoo\r\n`
the reply is `-ERR Unknown command\r\n` (and a non-numeric count or length
raises an exception, see C4). -/
theorem malformed_before_first_arg_invalid_command (N : Nat) (raw : String)
    (s : BlinkDB.DBState)
    (h : BlinkServer.decodeCommand raw = .ok []) :
    BlinkServer.serverReply N raw s
      = .ok ("-ERR Invalid Command\r\n", s) ∧
    BlinkServer.serverReply N "*2\r\n$3\r\nGET\r\nfoo\r\n" s
      = .ok ("-ERR Unknown command\r\n", s) := by
  constructor
  · unfold BlinkServer.serverReply
    rw [h]
    rfl
  · unfold BlinkServer.serverReply
    rw [show BlinkServer.decodeCommand "*2\r\n$3\r\nGET\r\nfoo\r\n"
          = .ok ["GET"] from rfl]
    rfl

/-- Witness for C3's amended theorem at a concrete input: `"foo"` has no
leading `*`, decodes to the empty vector, and is answered with the invalid
command error. -/
theorem malformed_before_first_arg_invalid_command_witness :
    BlinkServer.decodeCommand "foo" = .ok [] ∧
    BlinkServer.serverReply 10 "foo" BlinkDB.emptyState
      = .ok ("-ERR Invalid Command\r\n", BlinkDB.emptyState) :=
  ⟨rfl, (malformed_before_first_arg_invalid_command 10 "foo"
      BlinkDB.emptyState rfl).1⟩
namespace BlinkDB

theorem updateLRU_no_evict_of_mem {N : Nat} {k : String} {s : DBState}
    (hmem : k ∈ s.lru_keys) (hlen : s.lru_keys.length ≤ N) :
    updateLRU N k s = { s with lru_keys := k :: s.lru_keys.erase k } := by
  have hcont : s.lru_keys.contains k = true := List.elem_iff.mpr hmem
  have h1 : 0 < s.lru_keys.length := List.length_pos.mpr (List.ne_nil_of_mem hmem)
  have h2 : (s.lru_keys.erase k).length = s.lru_keys.length - 1 :=
    List.length_erase_of_mem hmem
  have hlt : ¬ N < s.lru_keys.length - 1 + 1 := by omega
  simp [updateLRU, hcont, hmem, hlt, h2]

theorem updateLRU_cons_not_mem {N : Nat} {k : String} {B : DBState}
    {l : List String} (hB : B.lru_keys = k :: l) (hkl : k ∉ l) (hN : 1 ≤ N) :
    (updateLRU N k B).lru_keys.head? = some k ∧
    (((updateLRU N k B).store = B.store ∧
      (updateLRU N k B).evicted_keys = B.evicted_keys) ∨
     ∃ e, e ∈ l ∧
       (updateLRU N k B).store = storeErase e B.store ∧
       ((updateLRU N k B).evicted_keys = B.evicted_keys ∨
        (updateLRU N k B).evicted_keys = evictedInsert e B.evicted_keys)) := by
  have hcont : B.lru_keys.contains k = true := by
    rw [hB]; exact List.elem_iff.mpr (List.mem_cons_self k l)
  have hmemB : k ∈ B.lru_keys := by rw [hB]; exact List.mem_cons_self k l
  have herase : B.lru_keys.erase k = l := by rw [hB]; exact List.erase_cons_head k l
  by_cases hbig : (k :: l).length > N
  · cases l with
    | nil =>
      simp only [List.length_cons, List.length_nil] at hbig
      exact absurd hN (by omega)
    | cons x xs =>
      obtain ⟨e, he⟩ : ∃ e, (x :: xs).getLast? = some e :=
        Option.isSome_iff_exists.mp rfl
      have hemem : e ∈ x :: xs := List.mem_of_mem_getLast? he
      have hgd : (k :: x :: xs).getLast?.getD k = e := by
        rw [show ((k :: x :: xs).getLast? : Option String)
              = (x :: xs).getLast? from rfl, he]
        rfl
      have hbig' : N < xs.length + 1 + 1 := by
        simp only [List.length_cons] at hbig
        omega
      have hupd : updateLRU N k B =
          { store := storeErase e B.store
            lru_keys := k :: (x :: xs).dropLast
            evicted_keys :=
              if B.store.any (fun p => p.1 == e) then
                evictedInsert e B.evicted_keys
              else B.evicted_keys
            dirty := true
            file := B.file } := by
        have hgd2 : (x :: xs).getLast?.getD k = e := by rw [he]; rfl
        simp [updateLRU, hcont, hmemB, herase, hgd, hbig']
        simp only [hcont, herase, if_true, hgd, hgd2]
        exact ⟨trivial, trivial⟩
      rw [hupd]
      refine ⟨rfl, Or.inr ⟨e, hemem, rfl, ?_⟩⟩
      by_cases hany : B.store.any (fun p => p.1 == e) = true
      · exact Or.inr (by simp [hany])
      · exact Or.inl (by simp [hany])
  · have hbig' : ¬ N < l.length + 1 := by
      simp only [List.length_cons] at hbig
      omega
    have hupd : updateLRU N k B = { B with lru_keys := k :: l } := by
      simp [updateLRU, hcont, hmemB, herase, hbig']
    rw [hupd]
    exact ⟨rfl, Or.inl ⟨rfl, rfl⟩⟩

end BlinkDB

/-- C5 counterexample: with capacity 1 and no flush yet, `SET a v; SET b w`
evicts `a` (marker set, file still absent); `GET a` then scans the log,
misses, and returns absent — but the stale marker for `a` is NOT removed
from the eviction marker set, contrary to the claim (`restoreFromDisk`
erases the marker only inside the hit branch). -/
theorem get_scan_miss_keeps_marker_counterexample :
    (BlinkDB.get 1 "a" (BlinkDB.set 1 "b" "w"
        (BlinkDB.set 1 "a" "v" BlinkDB.emptyState))).1 = "NULL" ∧
    (BlinkDB.get 1 "a" (BlinkDB.set 1 "b" "w"
        (BlinkDB.set 1 "a" "v" BlinkDB.emptyState))).2.evicted_keys = ["a"] :=
  ⟨rfl, rfl⟩

/-- C5 (amended): for an eviction-marked non-resident key `k` (not in the
LRU list, positive capacity), `get` scans the persistence log: on a hit of
value `v` it returns `v`, reinserts `k` with value `v` into the resident
set, places `k` at the LRU front and removes `k` from the eviction marker
set; on a scan miss it returns absent and leaves the state — in particular
the stale marker — completely unchanged. -/
theorem get_eviction_marked_restore_behavior (N : Nat) (k : String)
    (s : BlinkDB.DBState)
    (hev : s.evicted_keys.contains k = true)
    (hres : s.store.lookup k = none)
    (hlru : k ∉ s.lru_keys)
    (hN : 1 ≤ N) :
    (BlinkDB.fileLookup k s.file = none → BlinkDB.get N k s = ("NULL", s)) ∧
    (∀ v, BlinkDB.fileLookup k s.file = some v →
       (BlinkDB.get N k s).1 = v ∧
       (BlinkDB.get N k s).2.store.lookup k = some v ∧
       (BlinkDB.get N k s).2.lru_keys.head? = some k ∧
       k ∉ (BlinkDB.get N k s).2.evicted_keys) := by
  constructor
  · intro hfile
    have hrestore : BlinkDB.restoreFromDisk k s = s := by
      unfold BlinkDB.restoreFromDisk
      rw [hfile]
    unfold BlinkDB.get
    simp only [hres, hev, Option.isNone_none, Bool.and_self, if_true, hrestore]
  · intro v hfile
    have hrestore : BlinkDB.restoreFromDisk k s =
        { s with store := BlinkDB.storeAssign k v s.store
                 lru_keys := k :: s.lru_keys
                 evicted_keys := BlinkDB.evictedErase k s.evicted_keys } := by
      unfold BlinkDB.restoreFromDisk
      rw [hfile]
    have hlook : (BlinkDB.storeAssign k v s.store).lookup k = some v :=
      BlinkDB.lookup_storeAssign_self k v s.store
    have hgeteq : BlinkDB.get N k s =
        (v, BlinkDB.updateLRU N k
          { s with store := BlinkDB.storeAssign k v s.store
                   lru_keys := k :: s.lru_keys
                   evicted_keys := BlinkDB.evictedErase k s.evicted_keys }) := by
      unfold BlinkDB.get
      simp only [hres, hev, Option.isNone_none, Bool.and_self, if_true,
        hrestore]
      rw [show ({ s with store := BlinkDB.storeAssign k v s.store
                         lru_keys := k :: s.lru_keys
                         evicted_keys :=
                           BlinkDB.evictedErase k s.evicted_keys
                  : BlinkDB.DBState }).store.lookup k = some v from hlook]
    have hprops := BlinkDB.updateLRU_cons_not_mem
      (B := { s with store := BlinkDB.storeAssign k v s.store
                     lru_keys := k :: s.lru_keys
                     evicted_keys := BlinkDB.evictedErase k s.evicted_keys })
      (l := s.lru_keys) rfl hlru hN
    rw [hgeteq]
    refine ⟨rfl, ?_, hprops.1, ?_⟩
    · rcases hprops.2 with ⟨hst, _⟩ | ⟨e, hel, hst, _⟩
      · rw [hst]
        exact hlook
      · rw [hst]
        have hek : e ≠ k := fun h => hlru (h ▸ hel)
        rw [BlinkDB.lookup_storeErase_ne _ hek]
        exact hlook
    · have hbase : k ∉ BlinkDB.evictedErase k s.evicted_keys :=
        BlinkDB.not_mem_evictedErase_self k s.evicted_keys
      rcases hprops.2 with ⟨_, hevk⟩ | ⟨e, hel, _, hevk | hevk⟩
      · rw [hevk]; exact hbase
      · rw [hevk]; exact hbase
      · rw [hevk]
        exact BlinkDB.not_mem_evictedInsert_of_ne hbase
          (fun h => hlru (h ▸ hel))

/-- Witness for C5's amended theorem: with capacity 1 and the sequence
`SET a v; flush; SET b w` the key `a` is marked evicted and still on disk;
instantiating both branches at this state, the hit branch restores `a`. -/
theorem get_eviction_marked_restore_behavior_witness :
    (BlinkDB.get 1 "a" (BlinkDB.set 1 "b" "w" (BlinkDB.flushTick true
        (BlinkDB.set 1 "a" "v" BlinkDB.emptyState)))).1 = "v" ∧
    "a" ∉ (BlinkDB.get 1 "a" (BlinkDB.set 1 "b" "w" (BlinkDB.flushTick true
        (BlinkDB.set 1 "a" "v" BlinkDB.emptyState)))).2.evicted_keys := by
  have h := get_eviction_marked_restore_behavior 1 "a"
    (BlinkDB.set 1 "b" "w" (BlinkDB.flushTick true
      (BlinkDB.set 1 "a" "v" BlinkDB.emptyState)))
    (by decide) (by decide) (by decide) (by decide)
  have h2 := h.2 "v" rfl
  exact ⟨h2.1, h2.2.2.2⟩

/-- C10: for a key `k` currently in the resident set (hence, in any state
the engine can reach, also in the LRU list, whose length is at most the
capacity), `get k` changes only the LRU order, moving `k` to the front:
the store, the eviction marker set, the persistence file and the dirty
flag are unchanged, no eviction occurs (the LRU length — equal to the
resident-set size — is unchanged), and the stored value is returned. -/
theorem get_resident_frame (N : Nat) (k v : String) (s : BlinkDB.DBState)
    (hres : s.store.lookup k = some v)
    (hmem : k ∈ s.lru_keys)
    (hlen : s.lru_keys.length ≤ N) :
    (BlinkDB.get N k s).1 = v ∧
    (BlinkDB.get N k s).2.store = s.store ∧
    (BlinkDB.get N k s).2.evicted_keys = s.evicted_keys ∧
    (BlinkDB.get N k s).2.file = s.file ∧
    (BlinkDB.get N k s).2.dirty = s.dirty ∧
    (BlinkDB.get N k s).2.lru_keys = k :: s.lru_keys.erase k ∧
    (BlinkDB.get N k s).2.lru_keys.length = s.lru_keys.length := by
  have hgeteq : BlinkDB.get N k s = (v, BlinkDB.updateLRU N k s) := by
    simp [BlinkDB.get, hres]
  rw [hgeteq, BlinkDB.updateLRU_no_evict_of_mem hmem hlen]
  have h1 : 0 < s.lru_keys.length :=
    List.length_pos.mpr (List.ne_nil_of_mem hmem)
  refine ⟨rfl, rfl, rfl, rfl, rfl, rfl, ?_⟩
  simp only [List.length_cons, List.length_erase_of_mem hmem]
  omega

/-- Witness for C10 at a concrete state: after `SET a v` with capacity 2
the key `a` is resident and `get` keeps every component except the LRU
order unchanged. -/
theorem get_resident_frame_witness :
    (BlinkDB.get 2 "a" (BlinkDB.set 2 "a" "v" BlinkDB.emptyState)).1 = "v" ∧
    (BlinkDB.get 2 "a" (BlinkDB.set 2 "a" "v" BlinkDB.emptyState)).2.store
      = (BlinkDB.set 2 "a" "v" BlinkDB.emptyState).store := by
  have h := get_resident_frame 2 "a" "v"
    (BlinkDB.set 2 "a" "v" BlinkDB.emptyState) rfl (by decide) (by decide)
  exact ⟨h.1, h.2.1⟩
namespace BlinkDB

theorem not_mem_of_nodup_concat {α : Type} {l : List α} {a : α}
    (h : (l ++ [a]).Nodup) : a ∉ l := by
  intro hmem
  exact (List.nodup_append.mp h).2.2 hmem (List.mem_singleton_self a)

theorem contains_eq_false_of_not_mem {l : List String} {a : String}
    (h : a ∉ l) : l.contains a = false := by
  rcases hc : l.contains a with _ | _
  · rfl
  · exact absurd (List.elem_iff.mp hc) h

theorem updateLRU_no_evict_of_not_mem {N : Nat} {k : String} {s : DBState}
    (hmem : k ∉ s.lru_keys) (hlt : s.lru_keys.length < N) :
    updateLRU N k s = { s with lru_keys := k :: s.lru_keys } := by
  have hcont : s.lru_keys.contains k = false := contains_eq_false_of_not_mem hmem
  have hnot : ¬ N < s.lru_keys.length + 1 := by omega
  simp [updateLRU, hcont, hmem, hnot]

theorem foldl_set_prefix (N : Nat) (p : List (String × String)) :
    (p.map Prod.fst).Nodup → p.length ≤ N →
    ((p.foldl (fun st kv => set N kv.1 kv.2 st) emptyState).store = p ∧
     (p.foldl (fun st kv => set N kv.1 kv.2 st) emptyState).lru_keys
       = (p.map Prod.fst).reverse ∧
     (p.foldl (fun st kv => set N kv.1 kv.2 st) emptyState).evicted_keys = [] ∧
     (p.foldl (fun st kv => set N kv.1 kv.2 st) emptyState).file = "") := by
  induction p using List.reverseRecOn with
  | nil => exact fun _ _ => ⟨rfl, rfl, rfl, rfl⟩
  | append_singleton q kv ih =>
    intro hnd hlen
    have hndq : ((q ++ [kv]).map Prod.fst) = q.map Prod.fst ++ [kv.1] := by
      simp
    rw [hndq] at hnd
    have hnd1 : (q.map Prod.fst).Nodup := List.Nodup.of_append_left hnd
    have hknotin : kv.1 ∉ q.map Prod.fst := not_mem_of_nodup_concat hnd
    have hlen1 : q.length ≤ N := by
      simp only [List.length_append, List.length_singleton] at hlen
      omega
    have hlenq : q.length < N := by
      simp only [List.length_append, List.length_singleton] at hlen
      omega
    obtain ⟨hst, hlru, hev, hfile⟩ := ih hnd1 hlen1
    rw [List.foldl_append]
    simp only [List.foldl_cons, List.foldl_nil]
    have hnotlru : kv.1 ∉ (q.foldl (fun st kv => set N kv.1 kv.2 st)
        emptyState).lru_keys := by
      rw [hlru]
      simpa using hknotin
    have hlt : (q.foldl (fun st kv => set N kv.1 kv.2 st)
        emptyState).lru_keys.length < N := by
      rw [hlru]
      simpa using hlenq
    have hassign : storeAssign kv.1 kv.2 (q.foldl
        (fun st kv => set N kv.1 kv.2 st) emptyState).store = q ++ [kv] := by
      rw [hst]
      unfold storeAssign
      rw [if_neg (by simp [any_key_false_of_not_mem hknotin])]
    have set_eq : ∀ (k v : String) (s : DBState), set N k v s =
        { updateLRU N k s with
            store := storeAssign k v (updateLRU N k s).store
            dirty := true } :=
      fun _ _ _ => rfl
    rw [set_eq, updateLRU_no_evict_of_not_mem hnotlru hlt]
    refine ⟨by simpa using hassign, ?_, by simpa using hev, by simpa using hfile⟩
    rw [hndq]
    simp [hlru]

theorem updateLRU_evict_of_not_mem {N : Nat} {k : String} {B : DBState}
    (hmem : k ∉ B.lru_keys) (hlen : N < B.lru_keys.length + 1) :
    updateLRU N k B =
      { store := storeErase ((k :: B.lru_keys).getLast?.getD k) B.store
        lru_keys := (k :: B.lru_keys).dropLast
        evicted_keys :=
          if B.store.any (fun p => p.1 == (k :: B.lru_keys).getLast?.getD k)
          then evictedInsert ((k :: B.lru_keys).getLast?.getD k) B.evicted_keys
          else B.evicted_keys
        dirty := true
        file := B.file } := by
  have hcont : B.lru_keys.contains k = false := contains_eq_false_of_not_mem hmem
  simp [updateLRU, hcont, hmem, hlen]
  simp only [hcont]
  simp

end BlinkDB


/-- C7: starting from the empty store with capacity `N`, after
`SET k1; SET k2; ...; SET kN; SET kN+1` of `N + 1` pairwise-distinct keys,
the first key `k1` is no longer in the resident set and is in the eviction
marker set (the LRU tail is the key evicted on overflow).  The sequence is
written as the first pair, `mid` pairs, and the last pair, with
`mid.length + 1 = N`, so it has exactly `N + 1` records. -/
theorem lru_overflow_evicts_first_key (N : Nat) (k1 v1 kL vL : String)
    (mid : List (String × String))
    (hlen : mid.length + 1 = N)
    (hnd : ((((k1, v1) :: mid) ++ [(kL, vL)]).map Prod.fst).Nodup) :
    ((((k1, v1) :: mid) ++ [(kL, vL)]).foldl
        (fun st kv => BlinkDB.set N kv.1 kv.2 st)
        BlinkDB.emptyState).store.lookup k1 = none ∧
    k1 ∈ ((((k1, v1) :: mid) ++ [(kL, vL)]).foldl
        (fun st kv => BlinkDB.set N kv.1 kv.2 st)
        BlinkDB.emptyState).evicted_keys := by
  have hmap : (((k1, v1) :: mid) ++ [(kL, vL)]).map Prod.fst
      = (k1 :: mid.map Prod.fst) ++ [kL] := by simp
  rw [hmap] at hnd
  have hndp : (k1 :: mid.map Prod.fst).Nodup := List.Nodup.of_append_left hnd
  have hkL : kL ∉ k1 :: mid.map Prod.fst := BlinkDB.not_mem_of_nodup_concat hnd
  have hk1mid : k1 ∉ mid.map Prod.fst := (List.nodup_cons.mp hndp).1
  have hk1kL : k1 ≠ kL := fun h => hkL (h ▸ List.mem_cons_self k1 _)
  have hkLmid : kL ∉ mid.map Prod.fst :=
    fun h => hkL (List.mem_cons_of_mem _ h)
  have hlenp : ((k1, v1) :: mid).length ≤ N := by
    simp only [List.length_cons]
    omega
  have hndp' : (((k1, v1) :: mid).map Prod.fst).Nodup := by simpa using hndp
  obtain ⟨hst, hlru, hev, hfile⟩ :=
    BlinkDB.foldl_set_prefix N ((k1, v1) :: mid) hndp' hlenp
  have hsplit : (((k1, v1) :: mid) ++ [(kL, vL)]).foldl
      (fun st kv => BlinkDB.set N kv.1 kv.2 st) BlinkDB.emptyState
      = BlinkDB.set N kL vL (((k1, v1) :: mid).foldl
          (fun st kv => BlinkDB.set N kv.1 kv.2 st) BlinkDB.emptyState) := by
    rw [List.foldl_append]
    rfl
  rw [hsplit]
  have hnotlruL : kL ∉ (((k1, v1) :: mid).foldl
      (fun st kv => BlinkDB.set N kv.1 kv.2 st)
      BlinkDB.emptyState).lru_keys := by
    intro hm
    rw [hlru, List.mem_reverse] at hm
    exact hkL (by simpa using hm)
  have hbig : N < (((k1, v1) :: mid).foldl
      (fun st kv => BlinkDB.set N kv.1 kv.2 st)
      BlinkDB.emptyState).lru_keys.length + 1 := by
    rw [hlru]
    simp only [List.length_reverse, List.length_map, List.length_cons]
    omega
  have hgd : (kL :: (((k1, v1) :: mid).foldl
      (fun st kv => BlinkDB.set N kv.1 kv.2 st)
      BlinkDB.emptyState).lru_keys).getLast?.getD kL = k1 := by
    rw [hlru]
    rw [show (kL :: ((((k1, v1) :: mid).map Prod.fst).reverse : List String))
          = (kL :: (mid.map Prod.fst).reverse) ++ [k1] from by simp]
    rw [List.getLast?_concat]
    rfl
  have hany : ((((k1, v1) :: mid).foldl
      (fun st kv => BlinkDB.set N kv.1 kv.2 st)
      BlinkDB.emptyState).store.any (fun p => p.1 == k1)) = true := by
    rw [hst]
    simp
  have set_eq : BlinkDB.set N kL vL (((k1, v1) :: mid).foldl
      (fun st kv => BlinkDB.set N kv.1 kv.2 st) BlinkDB.emptyState) =
      { BlinkDB.updateLRU N kL (((k1, v1) :: mid).foldl
          (fun st kv => BlinkDB.set N kv.1 kv.2 st) BlinkDB.emptyState) with
          store := BlinkDB.storeAssign kL vL (BlinkDB.updateLRU N kL
            (((k1, v1) :: mid).foldl
              (fun st kv => BlinkDB.set N kv.1 kv.2 st)
              BlinkDB.emptyState)).store
          dirty := true } := rfl
  rw [set_eq, BlinkDB.updateLRU_evict_of_not_mem hnotlruL hbig, hgd,
    if_pos hany]
  have hse : BlinkDB.storeErase k1 (((k1, v1) :: mid).foldl
      (fun st kv => BlinkDB.set N kv.1 kv.2 st)
      BlinkDB.emptyState).store = mid := by
    rw [hst]
    simp only [BlinkDB.storeErase, List.filter_cons]
    rw [if_neg (by simp)]
    refine List.filter_eq_self.mpr fun p hp => ?_
    simp only [bne_iff_ne, ne_eq]
    exact fun h => hk1mid (h ▸ List.mem_map_of_mem Prod.fst hp)
  constructor
  · show (BlinkDB.storeAssign kL vL (BlinkDB.storeErase k1
        (((k1, v1) :: mid).foldl (fun st kv => BlinkDB.set N kv.1 kv.2 st)
          BlinkDB.emptyState).store)).lookup k1 = none
    rw [hse]
    have hsa : BlinkDB.storeAssign kL vL mid = mid ++ [(kL, vL)] := by
      unfold BlinkDB.storeAssign
      rw [if_neg (by simp [BlinkDB.any_key_false_of_not_mem hkLmid])]
    rw [hsa]
    refine BlinkDB.lookup_eq_none_of_not_mem ?_
    simp only [List.map_append, List.mem_append, not_or]
    exact ⟨hk1mid, by simpa using hk1kL⟩
  · show k1 ∈ BlinkDB.evictedInsert k1 (((k1, v1) :: mid).foldl
        (fun st kv => BlinkDB.set N kv.1 kv.2 st)
        BlinkDB.emptyState).evicted_keys
    rw [hev]
    simp [BlinkDB.evictedInsert]

/-- Witness for C7 with capacity 1 and the two distinct keys `a`, `b`:
after `SET a v; SET b w` the key `a` is gone from the store and marked
evicted. -/
theorem lru_overflow_evicts_first_key_witness :
    ((([("a", "v")] ++ [("b", "w")]).foldl
        (fun st kv => BlinkDB.set 1 kv.1 kv.2 st)
        BlinkDB.emptyState).store.lookup "a" = none) ∧
    "a" ∈ (([("a", "v")] ++ [("b", "w")]).foldl
        (fun st kv => BlinkDB.set 1 kv.1 kv.2 st)
        BlinkDB.emptyState).evicted_keys :=
  lru_overflow_evicts_first_key 1 "a" "v" "b" "w" [] rfl (by decide)
